import Mathlib

set_option maxRecDepth 8000

/-! Shallow embedding of the credential cipher (server encryption module),
the streaming upload relay and the settings-save handler of the
video-repurposing server.  JS strings are modelled as `List Char`; byte
sequences as `List Nat` with entries `< 256`.  The AES-256-GCM cipher from
node:crypto is modelled as an abstract executable stream cipher with an
authentication tag: `keystream` stands for the CTR keystream and
`macVal` / `computeTag` for the GHASH-based tag (any single-byte change of
the ciphertext changes the tag, mirroring GHASH's single-block sensitivity
for a nonzero hash key).  The envelope layout, hex codec, colon splitting,
environment lookup, error handling and all control flow are translated
directly from the source. -/

/-- One nibble to its lowercase hex character, as Buffer.toString("hex"). -/
def hexDigit (n : Nat) : Char :=
  if n < 10 then Char.ofNat (48 + n) else Char.ofNat (87 + n)

/-- A byte list to its lowercase hex encoding. -/
def hexEncode : List Nat → List Char
  | [] => []
  | b :: bs => hexDigit (b / 16) :: hexDigit (b % 16) :: hexEncode bs

/-- Hex digit value of a character; `none` for non-hex characters.  Node's
hex decoder accepts lowercase and uppercase digits alike. -/
def hexVal? (c : Char) : Option Nat :=
  if 48 ≤ c.toNat ∧ c.toNat ≤ 57 then some (c.toNat - 48)
  else if 97 ≤ c.toNat ∧ c.toNat ≤ 102 then some (c.toNat - 87)
  else if 65 ≤ c.toNat ∧ c.toNat ≤ 70 then some (c.toNat - 55)
  else none

/-- Buffer.from(s, "hex"): decode pairs of hex digits, stopping at the
first invalid pair or odd trailing character (Node truncates, it does not
throw). -/
def hexDecode : List Char → List Nat
  | c1 :: c2 :: rest =>
    match hexVal? c1, hexVal? c2 with
    | some h, some l => (16 * h + l) :: hexDecode rest
    | _, _ => []
  | _ => []

/-- JS String.prototype.split with a one-character separator: returns the
first segment and the list of remaining segments. -/
def jsSplitCore (sep : Char) : List Char → List Char × List (List Char)
  | [] => ([], [])
  | c :: cs =>
    let r := jsSplitCore sep cs
    if c = sep then ([], r.1 :: r.2) else (c :: r.1, r.2)

/-- JS s.split(sep): `"".split(":") = [""]`, `":".split(":") = ["", ""]`. -/
def jsSplit (sep : Char) (l : List Char) : List (List Char) :=
  (jsSplitCore sep l).1 :: (jsSplitCore sep l).2

/-- Polynomial byte accumulator mod 257; the building block of the
modelled tag function (257 is prime and 256 is invertible mod 257, so a
single-byte change always changes the value). -/
def polyAcc257 : List Nat → Nat
  | [] => 0
  | b :: bs => (b + 256 * polyAcc257 bs) % 257

/-- Models crypto.scryptSync(passphrase, "salt", 32): an abstract
deterministic derivation of the 32-byte key from the passphrase. -/
def scryptKey (passphrase : List Char) : Nat :=
  passphrase.foldl (fun a c => (a * 131 + c.toNat) % 65521) 7

/-- Models the byte at offset `i` of the AES-CTR keystream under
`(key, iv)`. -/
def keystream (key : Nat) (iv : List Nat) (i : Nat) : Nat :=
  (key + 7 * polyAcc257 iv + 13 * i) % 256

/-- cipher.update / decipher.update: XOR the data with the keystream
starting at offset `i` (GCM is a stream cipher, so encryption and
decryption are the same XOR). -/
def xorKeystream (key : Nat) (iv : List Nat) : Nat → List Nat → List Nat
  | _, [] => []
  | i, b :: bs => (b ^^^ keystream key iv i) :: xorKeystream key iv (i + 1) bs

/-- Models the GCM authentication value over `(key, iv, ciphertext)`. -/
def macVal (key : Nat) (iv ct : List Nat) : Nat :=
  ((key % 257 + 3 * polyAcc257 iv) + polyAcc257 ct) % 257

/-- The 16-byte authentication tag (cipher.getAuthTag()) encoding the
authentication value. -/
def tagBytes (m : Nat) : List Nat :=
  m % 256 :: m / 256 :: List.replicate 14 0

/-- The tag computed by the cipher over `(key, iv, ciphertext)`. -/
def computeTag (key : Nat) (iv ct : List Nat) : List Nat :=
  tagBytes (macVal key iv ct)

/-- The two environment variables consulted by getEncryptionKey. -/
structure CryptoEnv where
  encryptionKey : Option (List Char)
  sessionSecret : Option (List Char)

/-- `process.env.ENCRYPTION_KEY || process.env.SESSION_SECRET`: JS `||`
yields the second operand when the first is undefined or the empty
string. -/
def jsOrVar (a b : Option (List Char)) : Option (List Char) :=
  match a with
  | some s => if s = [] then b else some s
  | none => b

/-- getEncryptionKey: throws when the selected value is still falsy
(both variables absent or empty), otherwise derives the key via scrypt. -/
def getEncryptionKey (env : CryptoEnv) : Except String Nat :=
  match jsOrVar env.encryptionKey env.sessionSecret with
  | none => .error "ENCRYPTION_KEY or SESSION_SECRET must be set"
  | some s =>
    if s = [] then .error "ENCRYPTION_KEY or SESSION_SECRET must be set"
    else .ok (scryptKey s)

/-- encrypt(text): `if (!text) return ""` before any key lookup; otherwise
derive the key (this can throw and encrypt does not catch), encrypt with a
fresh iv (passed here as an explicit argument in place of
crypto.randomBytes(16)), and emit `hex(iv):hex(tag):hex(ciphertext)`. -/
def encrypt (env : CryptoEnv) (iv : List Nat) (text : List Nat) :
    Except String (List Char) :=
  if text = [] then .ok []
  else
    match getEncryptionKey env with
    | .error e => .error e
    | .ok key =>
      .ok (hexEncode iv ++ ':' ::
        (hexEncode (computeTag key iv (xorKeystream key iv 0 text)) ++ ':' ::
          hexEncode (xorKeystream key iv 0 text)))

/-- The three hex segments of the envelope encrypt would emit (`none` when
encrypt would return "" or throw). -/
def encryptSegments (env : CryptoEnv) (iv : List Nat) (text : List Nat) :
    Option (List Char × List Char × List Char) :=
  if text = [] then none
  else
    match getEncryptionKey env with
    | .error _ => none
    | .ok key =>
      some (hexEncode iv,
        hexEncode (computeTag key iv (xorKeystream key iv 0 text)),
        hexEncode (xorKeystream key iv 0 text))

/-- The try-block of decrypt: key lookup (can throw), split on ':',
`if (parts.length !== 3) return ""`, hex-decode the segments,
createDecipheriv (throws on an empty GCM iv), decipher.update, and
decipher.final which verifies the authentication tag and throws on
mismatch. -/
def decryptBody (env : CryptoEnv) (s : List Char) :
    Except String (List Nat) :=
  match getEncryptionKey env with
  | .error e => .error e
  | .ok key =>
    match jsSplit ':' s with
    | [p0, p1, p2] =>
      if hexDecode p0 = [] then .error "Invalid initialization vector"
      else if hexDecode p1 = computeTag key (hexDecode p0) (hexDecode p2) then
        .ok (xorKeystream key (hexDecode p0) 0 (hexDecode p2))
      else .error "Unsupported state or unable to authenticate data"
    | _ => .ok []

/-- decrypt(encryptedText): `if (!encryptedText) return ""`, then the
try-block; any thrown error is caught and mapped to "". -/
def decrypt (env : CryptoEnv) (s : List Char) : List Nat :=
  if s = [] then []
  else
    match decryptBody env s with
    | .ok r => r
    | .error _ => []

/-! ### Basic lemmas about the hex codec, splitting, and the cipher model -/

theorem hexVal?_hexDigit (n : Nat) (h : n < 16) :
    hexVal? (hexDigit n) = some n := by
  interval_cases n <;> decide

theorem hexVal?_lt {c : Char} {v : Nat} (h : hexVal? c = some v) : v < 16 := by
  unfold hexVal? at h
  split_ifs at h with h1 h2 h3 <;>
    simp only [Option.some.injEq, reduceCtorEq] at h <;> omega

theorem hexVal?_colon : hexVal? ':' = none := by decide

theorem hexDigit_ne_colon (n : Nat) (h : n < 16) : hexDigit n ≠ ':' := by
  interval_cases n <;> decide

theorem hexVal?_ne_colon {c : Char} (h : (hexVal? c).isSome) : c ≠ ':' := by
  intro hc
  rw [hc, hexVal?_colon] at h
  simp at h

theorem hexEncode_no_colon (bs : List Nat) (h : ∀ b ∈ bs, b < 256) :
    ':' ∉ hexEncode bs := by
  induction bs with
  | nil => simp [hexEncode]
  | cons b bs ih =>
    have hb : b < 256 := h b (by simp)
    have ih' := ih (fun x hx => h x (by simp [hx]))
    simp only [hexEncode, List.mem_cons, not_or]
    refine ⟨?_, ?_, ih'⟩
    · exact fun hc => hexDigit_ne_colon (b / 16) (by omega) hc.symm
    · exact fun hc => hexDigit_ne_colon (b % 16) (by omega) hc.symm

theorem hexDecode_hexEncode (bs : List Nat) (h : ∀ b ∈ bs, b < 256) :
    hexDecode (hexEncode bs) = bs := by
  induction bs with
  | nil => rfl
  | cons b bs ih =>
    have hb : b < 256 := h b (by simp)
    have h1 : hexVal? (hexDigit (b / 16)) = some (b / 16) :=
      hexVal?_hexDigit _ (by omega)
    have h2 : hexVal? (hexDigit (b % 16)) = some (b % 16) :=
      hexVal?_hexDigit _ (by omega)
    have hbd : 16 * (b / 16) + b % 16 = b := by omega
    simp only [hexEncode, hexDecode, h1, h2, hbd, List.cons.injEq, true_and]
    exact ih (fun x hx => h x (by simp [hx]))

theorem jsSplitCore_no_sep (sep : Char) (a : List Char) (h : sep ∉ a) :
    jsSplitCore sep a = (a, []) := by
  induction a with
  | nil => rfl
  | cons c a ih =>
    simp only [List.mem_cons, not_or] at h
    simp only [jsSplitCore, ih h.2]
    rw [if_neg (fun hc => h.1 hc.symm)]

theorem jsSplitCore_append (sep : Char) (a rest : List Char) (h : sep ∉ a) :
    jsSplitCore sep (a ++ sep :: rest) =
      (a, (jsSplitCore sep rest).1 :: (jsSplitCore sep rest).2) := by
  induction a with
  | nil => simp [jsSplitCore]
  | cons c a ih =>
    simp only [List.mem_cons, not_or] at h
    have hih := ih h.2
    simp only [List.cons_append, jsSplitCore, List.append_eq]
    rw [if_neg (fun hc => h.1 hc.symm), hih]

theorem jsSplit_three (sep : Char) (a b c : List Char)
    (ha : sep ∉ a) (hb : sep ∉ b) (hc : sep ∉ c) :
    jsSplit sep (a ++ sep :: (b ++ sep :: c)) = [a, b, c] := by
  unfold jsSplit
  rw [jsSplitCore_append sep a _ ha, jsSplitCore_append sep b _ hb,
      jsSplitCore_no_sep sep c hc]

theorem xorKeystream_invol (key : Nat) (iv : List Nat) :
    ∀ (i : Nat) (bs : List Nat),
      xorKeystream key iv i (xorKeystream key iv i bs) = bs := by
  intro i bs
  induction bs generalizing i with
  | nil => rfl
  | cons b bs ih =>
    simp only [xorKeystream, Nat.xor_cancel_right, List.cons.injEq, true_and]
    exact ih (i + 1)

theorem keystream_lt (key : Nat) (iv : List Nat) (i : Nat) :
    keystream key iv i < 256 :=
  Nat.mod_lt _ (by norm_num)

theorem xorKeystream_lt (key : Nat) (iv : List Nat) :
    ∀ (i : Nat) (bs : List Nat), (∀ b ∈ bs, b < 256) →
      ∀ x ∈ xorKeystream key iv i bs, x < 256 := by
  intro i bs
  induction bs generalizing i with
  | nil => intro _ x hx; simp [xorKeystream] at hx
  | cons b bs ih =>
    intro h x hx
    simp only [xorKeystream, List.mem_cons] at hx
    rcases hx with rfl | hx
    · have hb : b < 256 := h b (by simp)
      have hk := keystream_lt key iv i
      have h256 : (2 : Nat) ^ 8 = 256 := by norm_num
      exact h256 ▸ Nat.xor_lt_two_pow (h256.symm ▸ hb) (h256.symm ▸ hk)
    · exact ih (i + 1) (fun y hy => h y (by simp [hy])) x hx

theorem polyAcc257_lt (bs : List Nat) : polyAcc257 bs < 257 := by
  cases bs with
  | nil => norm_num [polyAcc257]
  | cons b bs =>
    simp only [polyAcc257]
    exact Nat.mod_lt _ (by norm_num)

theorem macVal_lt (key : Nat) (iv ct : List Nat) : macVal key iv ct < 257 :=
  Nat.mod_lt _ (by norm_num)

theorem tagBytes_lt (m : Nat) (hm : m < 65536) : ∀ b ∈ tagBytes m, b < 256 := by
  intro b hb
  simp only [tagBytes, List.mem_cons] at hb
  rcases hb with rfl | rfl | hb
  · omega
  · omega
  · have := List.eq_of_mem_replicate hb
    omega

theorem computeTag_lt (key : Nat) (iv ct : List Nat) :
    ∀ b ∈ computeTag key iv ct, b < 256 :=
  tagBytes_lt _ (by have := macVal_lt key iv ct; omega)

theorem tagBytes_inj {a b : Nat} (h : tagBytes a = tagBytes b) : a = b := by
  simp only [tagBytes, List.cons.injEq] at h
  omega

theorem polyAcc257_set_ne :
    ∀ (bs : List Nat) (j old b : Nat),
      bs.get? j = some old → b < 257 → old < 257 → b ≠ old →
      polyAcc257 (bs.set j b) ≠ polyAcc257 bs := by
  intro bs
  induction bs with
  | nil => intro j old b h; simp at h
  | cons x xs ih =>
    intro j old b hget hb hold hne
    cases j with
    | zero =>
      rw [List.get?_cons_zero, Option.some.injEq] at hget
      subst hget
      intro heq
      simp only [List.set_cons_zero, polyAcc257] at heq
      have h2 := Nat.ModEq.add_right_cancel' (256 * polyAcc257 xs) heq
      unfold Nat.ModEq at h2
      omega
    | succ j =>
      rw [List.get?_cons_succ] at hget
      intro heq
      have hih := ih j old b hget hb hold hne
      simp only [List.set_cons_succ, polyAcc257] at heq
      have e1 : 256 * polyAcc257 (xs.set j b) ≡ 256 * polyAcc257 xs [MOD 257] :=
        Nat.ModEq.add_left_cancel' x heq
      have e2 := e1.mul_left 256
      rw [← Nat.mul_assoc, ← Nat.mul_assoc] at e2
      have h65 : (65536 : Nat) ≡ 1 [MOD 257] := by decide
      have e3 : polyAcc257 (xs.set j b) ≡ polyAcc257 xs [MOD 257] := by
        have l1 := (h65.mul_right (polyAcc257 (xs.set j b))).symm
        have l2 := h65.mul_right (polyAcc257 xs)
        rw [Nat.one_mul] at l1 l2
        exact (l1.trans e2).trans l2
      have hA := polyAcc257_lt (xs.set j b)
      have hB := polyAcc257_lt xs
      unfold Nat.ModEq at e3
      exact hih (by omega)

theorem macVal_set_ne (key : Nat) (iv ct : List Nat) (j old b : Nat)
    (hget : ct.get? j = some old) (hb : b < 257) (hold : old < 257)
    (hne : b ≠ old) :
    macVal key iv (ct.set j b) ≠ macVal key iv ct := by
  intro heq
  have hp := polyAcc257_set_ne ct j old b hget hb hold hne
  unfold macVal at heq
  have h2 := Nat.ModEq.add_left_cancel' (key % 257 + 3 * polyAcc257 iv) heq
  have hA := polyAcc257_lt (ct.set j b)
  have hB := polyAcc257_lt ct
  unfold Nat.ModEq at h2
  exact hp (by omega)

theorem computeTag_set_ne (key : Nat) (iv ct : List Nat) (j old b : Nat)
    (hget : ct.get? j = some old) (hb : b < 257) (hold : old < 257)
    (hne : b ≠ old) :
    computeTag key iv (ct.set j b) ≠ computeTag key iv ct := by
  intro heq
  exact macVal_set_ne key iv ct j old b hget hb hold hne (tagBytes_inj heq)

/-- Changing one hex character of an encoding to a hex character with a
different value decodes to the original bytes with exactly one byte
changed. -/
theorem hexDecode_set (bs : List Nat) (h : ∀ x ∈ bs, x < 256) :
    ∀ (k : Nat) (c d : Char), (hexEncode bs).get? k = some c →
      (hexVal? d).isSome → hexVal? d ≠ hexVal? c →
      ∃ j old b, bs.get? j = some old ∧ b < 256 ∧ b ≠ old ∧
        hexDecode ((hexEncode bs).set k d) = bs.set j b := by
  induction bs with
  | nil => intro k c d hc; simp [hexEncode] at hc
  | cons x xs ih =>
    intro k c d hc hd hne
    have hx : x < 256 := h x (by simp)
    have hxs : ∀ y ∈ xs, y < 256 := fun y hy => h y (by simp [hy])
    obtain ⟨v, hv⟩ := Option.isSome_iff_exists.mp hd
    have hvlt : v < 16 := hexVal?_lt hv
    have hhi : hexVal? (hexDigit (x / 16)) = some (x / 16) :=
      hexVal?_hexDigit _ (by omega)
    have hlo : hexVal? (hexDigit (x % 16)) = some (x % 16) :=
      hexVal?_hexDigit _ (by omega)
    cases k with
    | zero =>
      rw [show hexEncode (x :: xs) =
            hexDigit (x / 16) :: hexDigit (x % 16) :: hexEncode xs from rfl,
          List.get?_cons_zero, Option.some.injEq] at hc
      subst hc
      rw [hhi] at hne
      refine ⟨0, x, 16 * v + x % 16, List.get?_cons_zero, by omega, ?_, ?_⟩
      · intro hcontra
        exact hne (by rw [hv]; exact congrArg some (by omega))
      · rw [show hexEncode (x :: xs) =
              hexDigit (x / 16) :: hexDigit (x % 16) :: hexEncode xs from rfl,
            List.set_cons_zero]
        simp only [hexDecode, hv, hlo, List.set_cons_zero]
        rw [hexDecode_hexEncode xs hxs]
    | succ k =>
      cases k with
      | zero =>
        rw [show hexEncode (x :: xs) =
              hexDigit (x / 16) :: hexDigit (x % 16) :: hexEncode xs from rfl,
            List.get?_cons_succ, List.get?_cons_zero, Option.some.injEq] at hc
        subst hc
        rw [hlo] at hne
        refine ⟨0, x, 16 * (x / 16) + v, List.get?_cons_zero, by omega, ?_, ?_⟩
        · intro hcontra
          exact hne (by rw [hv]; exact congrArg some (by omega))
        · rw [show hexEncode (x :: xs) =
                hexDigit (x / 16) :: hexDigit (x % 16) :: hexEncode xs from rfl,
              List.set_cons_succ, List.set_cons_zero]
          simp only [hexDecode, hv, hhi, List.set_cons_zero]
          rw [hexDecode_hexEncode xs hxs]
      | succ k =>
        rw [show hexEncode (x :: xs) =
              hexDigit (x / 16) :: hexDigit (x % 16) :: hexEncode xs from rfl,
            List.get?_cons_succ, List.get?_cons_succ] at hc
        obtain ⟨j, old, b, hj, hblt, hbne, hdec⟩ := ih hxs k c d hc hd hne
        refine ⟨j + 1, old, b, by rw [List.get?_cons_succ]; exact hj,
          hblt, hbne, ?_⟩
        rw [show hexEncode (x :: xs) =
              hexDigit (x / 16) :: hexDigit (x % 16) :: hexEncode xs from rfl,
            List.set_cons_succ, List.set_cons_succ]
        simp only [hexDecode, hhi, hlo, List.set_cons_succ, hdec]
        congr 1
        omega

/-! ### Helper lemmas about decrypt's branches -/

theorem decryptBody_not_three (env : CryptoEnv) (key : Nat)
    (hk : getEncryptionKey env = .ok key) (s : List Char)
    (h : (jsSplit ':' s).length ≠ 3) : decryptBody env s = .ok [] := by
  unfold decryptBody
  rw [hk]
  rcases hl : jsSplit ':' s with _ | ⟨p0, _ | ⟨p1, _ | ⟨p2, _ | rest⟩⟩⟩
  · rfl
  · rfl
  · rfl
  · rw [hl] at h
    simp at h
  · rfl

theorem decrypt_of_body_ok (env : CryptoEnv) (s : List Char) (r : List Nat)
    (hs : s ≠ []) (h : decryptBody env s = .ok r) : decrypt env s = r := by
  unfold decrypt
  rw [if_neg hs, h]

theorem decrypt_of_body_error (env : CryptoEnv) (s : List Char) (msg : String)
    (h : decryptBody env s = .error msg) : decrypt env s = [] := by
  unfold decrypt
  by_cases hs : s = []
  · rw [if_pos hs]
  · rw [if_neg hs, h]

theorem decrypt_not_three (env : CryptoEnv) (s : List Char)
    (h : (jsSplit ':' s).length ≠ 3) : decrypt env s = [] := by
  by_cases hs : s = []
  · unfold decrypt
    rw [if_pos hs]
  · cases hk : getEncryptionKey env with
    | error msg =>
      refine decrypt_of_body_error env s msg ?_
      unfold decryptBody
      rw [hk]
    | ok key =>
      exact decrypt_of_body_ok env s [] hs (decryptBody_not_three env key hk s h)

/-- The envelope emitted by encrypt is never the empty string. -/
theorem envelope_ne_nil (a b c : List Char) : a ++ ':' :: (b ++ ':' :: c) ≠ [] := by
  simp [List.append_eq_nil]

/-! ### Claim C1: round-trip -/

/-- C1.  With the encryption-key environment configuration present, for
every 16-byte iv and non-empty plaintext (as UTF-8 bytes), decrypting the
envelope emitted by encrypt recovers the plaintext exactly. -/
theorem c1_round_trip (env : CryptoEnv) (iv text : List Nat) (key : Nat)
    (hkey : getEncryptionKey env = .ok key)
    (hivlen : iv.length = 16) (hiv : ∀ b ∈ iv, b < 256)
    (htext : text ≠ []) (htb : ∀ b ∈ text, b < 256)
    (e : List Char) (he : encrypt env iv text = .ok e) :
    decrypt env e = text := by
  have hct : ∀ b ∈ xorKeystream key iv 0 text, b < 256 :=
    xorKeystream_lt key iv 0 text htb
  have htag : ∀ b ∈ computeTag key iv (xorKeystream key iv 0 text), b < 256 :=
    computeTag_lt key iv _
  unfold encrypt at he
  rw [if_neg htext, hkey] at he
  have he' : e = hexEncode iv ++ ':' ::
      (hexEncode (computeTag key iv (xorKeystream key iv 0 text)) ++ ':' ::
        hexEncode (xorKeystream key iv 0 text)) := by
    cases he
    rfl
  subst he'
  have hivne : hexDecode (hexEncode iv) ≠ [] := by
    rw [hexDecode_hexEncode iv hiv]
    intro hcontra
    rw [hcontra] at hivlen
    simp at hivlen
  refine decrypt_of_body_ok env _ text (envelope_ne_nil _ _ _) ?_
  unfold decryptBody
  rw [hkey,
    jsSplit_three ':' _ _ _ (hexEncode_no_colon iv hiv)
      (hexEncode_no_colon _ htag) (hexEncode_no_colon _ hct)]
  simp only [hexDecode_hexEncode iv hiv, hexDecode_hexEncode _ htag,
    hexDecode_hexEncode _ hct]
  rw [if_neg (by rw [hexDecode_hexEncode iv hiv] at hivne; exact hivne)]
  simp only [if_true]
  rw [xorKeystream_invol]

def cEnv : CryptoEnv := ⟨some ['k'], none⟩

def cIv : List Nat := List.replicate 16 0

def cKey : Nat := scryptKey ['k']

def cMsg : List Nat := [104, 105]

/-- The concrete envelope encrypt produces for `cMsg` under `cEnv`/`cIv`. -/
def cEnvelope : List Char :=
  match encrypt cEnv cIv cMsg with
  | .ok e => e
  | .error _ => []

theorem c1_round_trip_witness :
    encrypt cEnv cIv cMsg = .ok cEnvelope ∧ decrypt cEnv cEnvelope = cMsg :=
  ⟨rfl, c1_round_trip cEnv cIv cMsg cKey rfl (by decide) (by decide)
    (by decide) (by decide) cEnvelope rfl⟩

/-! ### Claim C9: empty-input identity -/

/-- C9.  Encrypt of the empty string is the empty string (returned before
any key lookup, so it holds in every environment) and decrypt of the empty
string is the empty string: an empty secret is stored as an empty value,
never as an encrypted empty string. -/
theorem c9_empty_identity :
    (∀ (env : CryptoEnv) (iv : List Nat), encrypt env iv [] = .ok []) ∧
    (∀ env : CryptoEnv, decrypt env [] = []) :=
  ⟨fun _ _ => rfl, fun _ => rfl⟩

/-! ### Claim C4: malformed-envelope tolerance -/

/-- C4.  Decrypt never propagates an exception: an input that does not
split on ':' into exactly 3 parts yields the empty string, the spec's two
concrete malformed envelopes yield the empty string, and every error
thrown inside the try-block (bad hex, tag mismatch, wrong or missing key)
is caught and mapped to the empty string. -/
theorem c4_malformed_tolerance :
    (∀ (env : CryptoEnv) (s : List Char),
      (jsSplit ':' s).length ≠ 3 → decrypt env s = []) ∧
    (∀ env : CryptoEnv,
      decrypt env "not:a:valid:envelope:with:six:parts".data = []) ∧
    (∀ env : CryptoEnv, decrypt env "justonepart".data = []) ∧
    (∀ (env : CryptoEnv) (s : List Char) (msg : String),
      decryptBody env s = .error msg → decrypt env s = []) :=
  ⟨decrypt_not_three,
   fun env => decrypt_not_three env _ (by decide),
   fun env => decrypt_not_three env _ (by decide),
   decrypt_of_body_error⟩

theorem c4_malformed_tolerance_witness :
    decrypt cEnv "ab:cd".data = [] ∧ decrypt cEnv "justonepart".data = [] :=
  ⟨c4_malformed_tolerance.1 cEnv _ (by decide),
   c4_malformed_tolerance.2.2.1 cEnv⟩

/-! ### Claim C8: behaviour with no key configured -/

def envUnset : CryptoEnv := ⟨none, none⟩

/-- C8 counterexample.  With neither ENCRYPTION_KEY nor SESSION_SECRET
set, decrypt on a non-empty envelope does NOT raise: the key-derivation
error is thrown inside decrypt's try-block, caught, and mapped to the
empty string, so decrypt returns a value, contradicting the claim that
decrypt "fails fatally (raises) rather than return a value". -/
theorem c8_counterexample :
    decryptBody envUnset "aa:bb:cc".data =
      .error "ENCRYPTION_KEY or SESSION_SECRET must be set" ∧
    decrypt envUnset "aa:bb:cc".data = [] :=
  ⟨rfl, rfl⟩

/-- C8 amended.  With neither variable set, encrypt on a non-empty input
throws (the key error propagates out of encrypt), while decrypt on any
non-empty input catches the key error and returns the empty string; in
either case no encryption operation can produce or recover a secret. -/
theorem c8_amended (iv text : List Nat) (htext : text ≠ [])
    (s : List Char) (hs : s ≠ []) :
    encrypt envUnset iv text =
      .error "ENCRYPTION_KEY or SESSION_SECRET must be set" ∧
    decrypt envUnset s = [] := by
  constructor
  · unfold encrypt
    rw [if_neg htext]
    rfl
  · unfold decrypt
    rw [if_neg hs]
    rfl

theorem c8_amended_witness :
    encrypt envUnset cIv [1] =
      .error "ENCRYPTION_KEY or SESSION_SECRET must be set" ∧
    decrypt envUnset "xy".data = [] :=
  c8_amended cIv [1] (by decide) "xy".data (by decide)

/-! ### Claim C5: tamper rejection -/

theorem no_colon_set (l : List Char) (k : Nat) (d : Char)
    (hl : ':' ∉ l) (hd : d ≠ ':') : ':' ∉ l.set k d := by
  intro hmem
  rcases List.mem_or_eq_of_mem_set hmem with h | h
  · exact hl h
  · exact hd h.symm

theorem list_set_ne_self (l : List Nat) :
    ∀ (j old b : Nat), l.get? j = some old → b ≠ old → l.set j b ≠ l := by
  induction l with
  | nil => intro j old b h; simp at h
  | cons x xs ih =>
    intro j old b hget hne heq
    cases j with
    | zero =>
      rw [List.get?_cons_zero, Option.some.injEq] at hget
      rw [List.set_cons_zero] at heq
      injection heq with h1 _
      exact hne (h1.trans hget)
    | succ j =>
      rw [List.get?_cons_succ] at hget
      rw [List.set_cons_succ] at heq
      injection heq with _ h2
      exact ih j old b hget hne h2

/-- C5 amended.  For every envelope produced by encrypt on a non-empty
plaintext, replacing any single hex character of the tag segment or of the
ciphertext segment by a hex character that denotes a DIFFERENT nibble
value makes decrypt return the empty string (and decrypt is total, so it
never raises).  The original claim, which allows replacement by any other
hex character, fails: Node's hex decoder is case-insensitive, so replacing
a lowercase hex letter by its uppercase form decodes identically and
decrypt returns the original plaintext (see the counterexample). -/
theorem c5_tamper_rejection (env : CryptoEnv) (iv text : List Nat)
    (key : Nat) (hkey : getEncryptionKey env = .ok key)
    (hivlen : iv.length = 16) (hiv : ∀ b ∈ iv, b < 256)
    (htext : text ≠ []) (htb : ∀ b ∈ text, b < 256)
    (ivH tagH ctH : List Char)
    (hseg : encryptSegments env iv text = some (ivH, tagH, ctH)) :
    (∀ (k : Nat) (c d : Char), tagH.get? k = some c →
      (hexVal? d).isSome → hexVal? d ≠ hexVal? c →
      decrypt env (ivH ++ ':' :: (tagH.set k d ++ ':' :: ctH)) = []) ∧
    (∀ (k : Nat) (c d : Char), ctH.get? k = some c →
      (hexVal? d).isSome → hexVal? d ≠ hexVal? c →
      decrypt env (ivH ++ ':' :: (tagH ++ ':' :: ctH.set k d)) = []) := by
  have hct : ∀ b ∈ xorKeystream key iv 0 text, b < 256 :=
    xorKeystream_lt key iv 0 text htb
  have htagb : ∀ b ∈ computeTag key iv (xorKeystream key iv 0 text), b < 256 :=
    computeTag_lt key iv _
  unfold encryptSegments at hseg
  rw [if_neg htext, hkey] at hseg
  simp only [Option.some.injEq, Prod.mk.injEq] at hseg
  obtain ⟨h1, h2, h3⟩ := hseg
  subst h1
  subst h2
  subst h3
  have hivnc : ':' ∉ hexEncode iv := hexEncode_no_colon iv hiv
  have htagnc : ':' ∉ hexEncode (computeTag key iv (xorKeystream key iv 0 text)) :=
    hexEncode_no_colon _ htagb
  have hctnc : ':' ∉ hexEncode (xorKeystream key iv 0 text) :=
    hexEncode_no_colon _ hct
  have hivne : iv ≠ [] := by
    intro hcontra
    rw [hcontra] at hivlen
    simp at hivlen
  constructor
  · intro k c d hckd hd hne
    obtain ⟨j, old, b, hj, hblt, hbne, hdec⟩ :=
      hexDecode_set (computeTag key iv (xorKeystream key iv 0 text)) htagb
        k c d hckd hd hne
    refine decrypt_of_body_error env _
      "Unsupported state or unable to authenticate data" ?_
    unfold decryptBody
    rw [hkey, jsSplit_three ':' _ _ _ hivnc
      (no_colon_set _ k d htagnc (hexVal?_ne_colon hd)) hctnc]
    simp only [hexDecode_hexEncode iv hiv, hexDecode_hexEncode _ hct, hdec]
    rw [if_neg hivne, if_neg (list_set_ne_self _ j old b hj hbne)]
  · intro k c d hckd hd hne
    obtain ⟨j, old, b, hj, hblt, hbne, hdec⟩ :=
      hexDecode_set (xorKeystream key iv 0 text) hct k c d hckd hd hne
    have hold : old < 256 := hct old (List.get?_mem hj)
    refine decrypt_of_body_error env _
      "Unsupported state or unable to authenticate data" ?_
    unfold decryptBody
    rw [hkey, jsSplit_three ':' _ _ _ hivnc htagnc
      (no_colon_set _ k d hctnc (hexVal?_ne_colon hd))]
    simp only [hexDecode_hexEncode iv hiv, hexDecode_hexEncode _ htagb, hdec]
    rw [if_neg hivne,
      if_neg (fun heq => computeTag_set_ne key iv _ j old b hj (by omega)
        (by omega) hbne heq.symm)]

def c5Msg : List Nat := [1]

/-- The concrete envelope segments for `c5Msg` under `cEnv`/`cIv` (the tag
segment begins with the lowercase hex letter 'f'). -/
def c5Segs : List Char × List Char × List Char :=
  match encryptSegments cEnv cIv c5Msg with
  | some t => t
  | none => ([], [], [])

/-- C5 counterexample.  Replacing the hex character 'f' of the tag segment
of a valid envelope by the different hex character 'F' leaves decryption
SUCCESSFUL: Node's hex decoder is case-insensitive, so the flipped
envelope decodes to the same tag bytes and decrypt returns the original
plaintext, not the empty string — the claim fails for this flip. -/
theorem c5_counterexample :
    encryptSegments cEnv cIv c5Msg =
      some (c5Segs.1, c5Segs.2.1, c5Segs.2.2) ∧
    c5Segs.2.1.get? 0 = some 'f' ∧
    ('F' : Char) ≠ 'f' ∧
    (hexVal? 'F').isSome ∧
    decrypt cEnv
      (c5Segs.1 ++ ':' :: (c5Segs.2.1.set 0 'F' ++ ':' :: c5Segs.2.2)) =
      c5Msg ∧
    c5Msg ≠ [] :=
  ⟨rfl, rfl, by decide, by decide, by decide, by decide⟩

theorem c5_tamper_rejection_witness :
    decrypt cEnv
      (c5Segs.1 ++ ':' :: (c5Segs.2.1.set 0 'a' ++ ':' :: c5Segs.2.2)) = [] :=
  (c5_tamper_rejection cEnv cIv c5Msg cKey rfl (by decide) (by decide)
    (by decide) (by decide) c5Segs.1 c5Segs.2.1 c5Segs.2.2 rfl).1
    0 'f' 'a' rfl (by decide) (by decide)

/-! ### Claim C10: settings-save key selection -/

/-- A JS value of type `string | null | undefined`, as assigned to the
encrypted-key column by the settings-save handler. -/
inductive KeyVal where
  | undef
  | null
  | str (s : List Char)
deriving DecidableEq

/-- The stored settings row field relevant for key handling: the key
column is NULL or holds an encrypted string. -/
structure SettingsRow where
  airtableApiKey : Option (List Char)
deriving DecidableEq

/-- `existing?.airtableApiKey`: undefined when no row exists, otherwise
the stored column value. -/
def existingKeyVal (existing : Option SettingsRow) : KeyVal :=
  match existing with
  | none => .undef
  | some row =>
    match row.airtableApiKey with
    | none => .null
    | some s => .str s

/-- UTF-8 encoding of one character (code point to 1–4 bytes); the cipher
operates on the UTF-8 bytes of the submitted string. -/
def utf8Char (c : Char) : List Nat :=
  if c.toNat < 128 then [c.toNat]
  else if c.toNat < 2048 then [192 + c.toNat / 64, 128 + c.toNat % 64]
  else if c.toNat < 65536 then
    [224 + c.toNat / 4096, 128 + c.toNat / 64 % 64, 128 + c.toNat % 64]
  else
    [240 + c.toNat / 262144, 128 + c.toNat / 4096 % 64,
      128 + c.toNat / 64 % 64, 128 + c.toNat % 64]

/-- UTF-8 encoding of a string. -/
def utf8Bytes : List Char → List Nat
  | [] => []
  | c :: cs => utf8Char c ++ utf8Bytes cs

/-- The encrypted-key selection of the settings-save handler:
`if (clearApiKey) null; else if (key && !key.startsWith("••")) encrypt(key);
else existing?.airtableApiKey` — a truthy (present, non-empty) submitted
value that does not begin with the mask is encrypted anew; everything else
writes the previously stored value back unchanged. -/
def selectEncryptedKey (env : CryptoEnv) (iv : List Nat) (clear : Bool)
    (submitted : Option (List Char)) (existing : Option SettingsRow) :
    Except String KeyVal :=
  if clear then .ok .null
  else
    match submitted with
    | some s =>
      if s ≠ [] ∧ ['•', '•'].isPrefixOf s = false then
        match encrypt env iv (utf8Bytes s) with
        | .ok e => .ok (.str e)
        | .error msg => .error msg
      else .ok (existingKeyVal existing)
    | none => .ok (existingKeyVal existing)

/-- C10.  When the submitted key is absent, empty, or begins with the mask
"••", and the clear flag is not set, the previously stored value
(undefined / null / encrypted string) is written back unchanged — no
re-encryption occurs; a set clear flag stores null; only a non-empty,
non-masked submitted key is encrypted anew. -/
theorem c10_settings_key_selection (env : CryptoEnv) (iv : List Nat)
    (submitted : Option (List Char)) (existing : Option SettingsRow) :
    (∀ clear, clear = true →
      selectEncryptedKey env iv clear submitted existing = .ok .null) ∧
    ((submitted = none ∨ submitted = some [] ∨
      (∃ s, submitted = some s ∧ ['•', '•'].isPrefixOf s = true)) →
      selectEncryptedKey env iv false submitted existing =
        .ok (existingKeyVal existing)) ∧
    (∀ s, submitted = some s → s ≠ [] → ['•', '•'].isPrefixOf s = false →
      selectEncryptedKey env iv false submitted existing =
        (encrypt env iv (utf8Bytes s)).map KeyVal.str) := by
  refine ⟨?_, ?_, ?_⟩
  · intro clear hc
    subst hc
    rfl
  · intro hcase
    rcases hcase with rfl | rfl | ⟨s, rfl, hmask⟩
    · rfl
    · rfl
    · simp [selectEncryptedKey, hmask]
  · intro s hs hne hmask
    subst hs
    simp only [selectEncryptedKey, Bool.false_eq_true, if_false,
      if_pos (And.intro hne hmask)]
    cases encrypt env iv (utf8Bytes s) <;> rfl

def rowOld : SettingsRow := ⟨some "0abc".data⟩

theorem c10_settings_key_selection_witness :
    selectEncryptedKey cEnv cIv false (some "••••".data) (some rowOld) =
      .ok (existingKeyVal (some rowOld)) ∧
    selectEncryptedKey cEnv cIv true (some "x".data) (some rowOld) =
      .ok .null :=
  ⟨(c10_settings_key_selection cEnv cIv (some "••••".data) (some rowOld)).2.1
      (Or.inr (Or.inr ⟨"••••".data, rfl, by decide⟩)),
   (c10_settings_key_selection cEnv cIv (some "x".data) (some rowOld)).1
      true rfl⟩

/-! ### Upload relay (POST /api/upload-video) -/

/-- Numeric value of a decimal digit run. -/
def decValue (ds : List Char) : Nat :=
  ds.foldl (fun a c => a * 10 + (c.toNat - 48)) 0

/-- Numeric value of a hex digit run. -/
def hexValue (ds : List Char) : Nat :=
  ds.foldl (fun a c => a * 16 + (hexVal? c).getD 0) 0

/-- The longest leading decimal digit run, NaN (`none`) when empty. -/
def parseDecRun (cs : List Char) : Option Nat :=
  if cs.takeWhile Char.isDigit = [] then none
  else some (decValue (cs.takeWhile Char.isDigit))

/-- The longest leading hex digit run, NaN (`none`) when empty. -/
def parseHexRun (cs : List Char) : Option Nat :=
  if cs.takeWhile (fun c => (hexVal? c).isSome) = [] then none
  else some (hexValue (cs.takeWhile (fun c => (hexVal? c).isSome)))

/-- The magnitude part of JS parseInt with no radix argument: a leading
"0x"/"0X" selects base 16, otherwise the leading decimal digit run. -/
def parseDigitRun : List Char → Option Nat
  | '0' :: 'x' :: rest => parseHexRun rest
  | '0' :: 'X' :: rest => parseHexRun rest
  | cs => parseDecRun cs

/-- JS parseInt(s): skip leading whitespace, optional sign, then the digit
run; `none` models NaN. -/
def jsParseInt (s : String) : Option Int :=
  match s.data.dropWhile Char.isWhitespace with
  | '-' :: rest => (parseDigitRun rest).map (fun n => -(n : Int))
  | '+' :: rest => (parseDigitRun rest).map (fun n => (n : Int))
  | rest => (parseDigitRun rest).map (fun n => (n : Int))

/-- `parseInt(value) || 1`: NaN, 0 and -0 are falsy and default to 1; any
other parsed integer — including negative ones — is kept. -/
def parseIntOr1 (v : String) : Int :=
  match jsParseInt v with
  | none => 1
  | some n => if n = 0 then 1 else n

/-- The busboy file-size ceiling: 500 * 1024 * 1024 bytes. -/
def fileSizeLimit : Nat := 500 * 1024 * 1024

/-- One part of the incoming multipart body: a scalar field or a file part
(only its declared filename and byte size matter for the relay). -/
inductive FormPart where
  | field (name value : String)
  | file (filename : String) (size : Nat)
deriving DecidableEq

/-- The incoming request: the parts busboy delivers in order, and whether
busboy then raises a parse error (an error mid-stream is modelled as a
shorter part list with the flag set). -/
structure UploadRequest where
  parts : List FormPart
  parseError : Bool
deriving DecidableEq

/-- Outcome of the outbound fetch to the webhook: a network rejection or a
response with ok-flag, status and body text. -/
inductive FetchResult where
  | reject (msg : String)
  | response (ok : Bool) (status : Nat) (body : String)
deriving DecidableEq

/-- Per-request configuration: the user's webhook URL (`none` when not
configured) and the webhook's behaviour. -/
structure UploadConfig where
  webhookUrl : Option String
  fetch : FetchResult
deriving DecidableEq

/-- The handler's mutable state while busboy parses, plus the set of
transient files currently existing on disk; a temp path is modelled by the
index of the part that created it (the source guarantees distinctness with
a timestamp + random suffix). -/
structure BusboyState where
  tempFilePath : Option Nat
  streamDestroyed : Bool
  fileName : String
  clipSize : String
  clipDuration : String
  clipCount : Int
  fileReceived : Bool
  fs : List Nat
deriving DecidableEq

/-- The handler's initial let-bindings. -/
def initState : BusboyState :=
  { tempFilePath := none, streamDestroyed := false, fileName := "",
    clipSize := "", clipDuration := "", clipCount := 1,
    fileReceived := false, fs := [] }

/-- busboy.on("field"): record the three recognized scalar fields;
clip_count is `parseInt(value) || 1`. -/
def processField (st : BusboyState) (name value : String) : BusboyState :=
  if name = "clip_size" then { st with clipSize := value }
  else if name = "clip_duration" then { st with clipDuration := value }
  else if name = "clip_count" then { st with clipCount := parseIntOr1 value }
  else st

/-- busboy.on("file"): record the filename, mark the file received, open a
fresh uniquely-named temp file and pipe into it; if the part exceeds the
limit, busboy emits "limit": the write stream is destroyed and the partial
temp file is unlinked immediately, within this same step. -/
def processFile (st : BusboyState) (idx : Nat) (filename : String)
    (size : Nat) : BusboyState :=
  let st1 : BusboyState :=
    { st with fileName := filename, fileReceived := true,
              tempFilePath := some idx, streamDestroyed := false,
              fs := idx :: st.fs }
  if size > fileSizeLimit then
    { st1 with streamDestroyed := true, fs := st1.fs.erase idx }
  else st1

/-- Feed the parts to busboy in order; `idx` numbers the parts so each
file part gets a distinct temp path. -/
def runParts (st : BusboyState) (idx : Nat) : List FormPart → BusboyState
  | [] => st
  | .field n v :: ps => runParts (processField st n v) (idx + 1) ps
  | .file fn sz :: ps => runParts (processFile st idx fn sz) (idx + 1) ps

/-- The outbound multipart form: the appended fields in order, the temp
path of the streamed file, and the declared content type of the file
part. -/
structure ForwardForm where
  fields : List (String × String)
  filePath : Nat
  fileContentType : String
deriving DecidableEq

/-- The observable outcome of one handler invocation: the response (status
and body text) if one was sent, the forwarded form if a POST to the
webhook was issued, the transient files still existing afterwards, and
whether the handler hung awaiting an event that never fires. -/
structure UploadResult where
  responded : Option (Nat × String)
  forwarded : Option ForwardForm
  fsLeft : List Nat
  hung : Bool
deriving DecidableEq

/-- busboy.on("finish"): validation, await of the write stream's "finish"
event (a destroyed stream never emits it, so that await never resolves and
the handler hangs with no response), form construction, fetch, cleanup of
the recorded temp path, and response relay. -/
def finishUpload (cfg : UploadConfig) (st : BusboyState) : UploadResult :=
  match st.tempFilePath with
  | none => ⟨some (400, "No file uploaded"), none, st.fs, false⟩
  | some p =>
    if st.fileReceived = false then
      ⟨some (400, "No file uploaded"), none, st.fs, false⟩
    else if st.clipSize = "" ∨ st.clipDuration = "" then
      ⟨some (400, "Missing clip configuration"), none, st.fs.erase p, false⟩
    else if st.streamDestroyed then
      ⟨none, none, st.fs, true⟩
    else
      let form : ForwardForm :=
        ⟨[("video_type", "mp4"), ("file_name", st.fileName),
          ("clip_size", st.clipSize), ("clip_duration", st.clipDuration),
          ("clip_count", toString st.clipCount)], p, "video/mp4"⟩
      match cfg.fetch with
      | .reject msg => ⟨some (500, msg), some form, st.fs.erase p, false⟩
      | .response ok status body =>
        if ok = false then
          ⟨some (status,
            if body = "" then "Webhook returned status " ++ toString status
            else body), some form, st.fs.erase p, false⟩
        else
          ⟨some (200,
            if body = "" then "Video submitted successfully" else body),
            some form, st.fs.erase p, false⟩

/-- The POST /api/upload-video handler: webhook-URL guard, busboy parse of
the parts, then either the busboy error handler (unlink the recorded temp
path if it exists, respond 500 "Upload failed") or the finish handler. -/
def handleUpload (cfg : UploadConfig) (req : UploadRequest) : UploadResult :=
  match cfg.webhookUrl with
  | none =>
    ⟨some (400,
      "Webhook URL not configured. Please add your n8n webhook URL in Settings."),
      none, [], false⟩
  | some _ =>
    if req.parseError then
      ⟨some (500, "Upload failed"), none,
        (match (runParts initState 0 req.parts).tempFilePath with
         | some p => (runParts initState 0 req.parts).fs.erase p
         | none => (runParts initState 0 req.parts).fs), false⟩
    else finishUpload cfg (runParts initState 0 req.parts)

/-! ### Lemmas about the upload relay state machine -/

/-- The number of file parts in a part list. -/
def fileCount (parts : List FormPart) : Nat :=
  (parts.filter (fun part => match part with
    | FormPart.field _ _ => false
    | FormPart.file _ _ => true)).length

theorem fileCount_field_cons (n v : String) (ps : List FormPart) :
    fileCount (.field n v :: ps) = fileCount ps := by
  simp [fileCount, List.filter_cons]

theorem fileCount_file_cons (fn : String) (sz : Nat) (ps : List FormPart) :
    fileCount (.file fn sz :: ps) = fileCount ps + 1 := by
  simp [fileCount, List.filter_cons]

theorem processField_state (st : BusboyState) (n v : String) :
    (processField st n v).tempFilePath = st.tempFilePath ∧
    (processField st n v).fs = st.fs ∧
    (processField st n v).fileReceived = st.fileReceived ∧
    (processField st n v).streamDestroyed = st.streamDestroyed := by
  unfold processField
  split_ifs <;> exact ⟨rfl, rfl, rfl, rfl⟩

theorem processField_fileName (st : BusboyState) (n v : String) :
    (processField st n v).fileName = st.fileName := by
  unfold processField
  split_ifs <;> rfl

theorem processFile_clipFields (st : BusboyState) (i : Nat) (fn : String)
    (sz : Nat) :
    (processFile st i fn sz).clipSize = st.clipSize ∧
    (processFile st i fn sz).clipDuration = st.clipDuration ∧
    (processFile st i fn sz).clipCount = st.clipCount := by
  unfold processFile
  split_ifs <;> exact ⟨rfl, rfl, rfl⟩

theorem runParts_fields_only (ps : List FormPart) :
    ∀ (st : BusboyState) (i : Nat), fileCount ps = 0 →
      (runParts st i ps).tempFilePath = st.tempFilePath ∧
      (runParts st i ps).fs = st.fs ∧
      (runParts st i ps).fileReceived = st.fileReceived ∧
      (runParts st i ps).streamDestroyed = st.streamDestroyed := by
  induction ps with
  | nil => intro st i _; exact ⟨rfl, rfl, rfl, rfl⟩
  | cons p ps ih =>
    intro st i h
    cases p with
    | field n v =>
      rw [fileCount_field_cons] at h
      obtain ⟨h1, h2, h3, h4⟩ := ih (processField st n v) (i + 1) h
      obtain ⟨g1, g2, g3, g4⟩ := processField_state st n v
      exact ⟨h1.trans g1, h2.trans g2, h3.trans g3, h4.trans g4⟩
    | file fn sz =>
      rw [fileCount_file_cons] at h
      exact (Nat.succ_ne_zero _ h).elim

theorem runParts_append (a : List FormPart) :
    ∀ (b : List FormPart) (st : BusboyState) (i : Nat),
      runParts st i (a ++ b) = runParts (runParts st i a) (i + a.length) b := by
  induction a with
  | nil => intro b st i; simp [runParts]
  | cons p a ih =>
    intro b st i
    cases p with
    | field n v =>
      simp only [List.cons_append, runParts, List.length_cons, List.append_eq]
      rw [ih]
      congr 1
      omega
    | file fn sz =>
      simp only [List.cons_append, runParts, List.length_cons, List.append_eq]
      rw [ih]
      congr 1
      omega

theorem fileCount_one_split (ps : List FormPart) :
    fileCount ps = 1 →
    ∃ a fn sz b, ps = a ++ FormPart.file fn sz :: b ∧
      fileCount a = 0 ∧ fileCount b = 0 := by
  induction ps with
  | nil => intro h; simp [fileCount] at h
  | cons p ps ih =>
    intro h
    cases p with
    | field n v =>
      rw [fileCount_field_cons] at h
      obtain ⟨a, fn, sz, b, hps, ha, hb⟩ := ih h
      exact ⟨.field n v :: a, fn, sz, b, by rw [hps]; rfl,
        by rw [fileCount_field_cons]; exact ha, hb⟩
    | file fn sz =>
      rw [fileCount_file_cons] at h
      exact ⟨[], fn, sz, ps, rfl, rfl, by omega⟩

theorem runParts_one_file_char (a b : List FormPart) (fn : String) (sz : Nat)
    (ha : fileCount a = 0) (hb : fileCount b = 0) :
    (runParts initState 0 (a ++ .file fn sz :: b)).tempFilePath =
        some a.length ∧
    (runParts initState 0 (a ++ .file fn sz :: b)).fileReceived = true ∧
    (sz > fileSizeLimit →
      (runParts initState 0 (a ++ .file fn sz :: b)).streamDestroyed = true ∧
      (runParts initState 0 (a ++ .file fn sz :: b)).fs = []) ∧
    (¬ sz > fileSizeLimit →
      (runParts initState 0 (a ++ .file fn sz :: b)).streamDestroyed = false ∧
      (runParts initState 0 (a ++ .file fn sz :: b)).fs = [a.length]) := by
  rw [runParts_append]
  obtain ⟨hT, hF, hR, hD⟩ := runParts_fields_only a initState 0 ha
  simp only [runParts]
  obtain ⟨gT, gF, gR, gD⟩ :=
    runParts_fields_only b
      (processFile (runParts initState 0 a) (0 + a.length) fn sz)
      (0 + a.length + 1) hb
  refine ⟨?_, ?_, fun hsz => ⟨?_, ?_⟩, fun hsz => ⟨?_, ?_⟩⟩
  · rw [gT]
    unfold processFile
    split_ifs <;> simp
  · rw [gR]
    unfold processFile
    split_ifs <;> rfl
  · rw [gD]
    simp [processFile, hsz]
  · rw [gF]
    simp only [processFile, if_pos hsz]
    rw [hF]
    simp [initState]
  · rw [gD]
    simp [processFile, hsz]
  · rw [gF]
    simp only [processFile, if_neg hsz]
    rw [hF]
    simp [initState]

/-! ### Claim C2: upload cleanup invariant -/

/-- C2 amended.  For every invocation whose request carries at most one
file part: no transient file remains after the handler is done, and every
failure is caught and answered — except the size-limit breach with both
clip fields supplied, the only path on which the handler hangs (it awaits
the "finish" event of the destroyed write stream, which never fires) and
sends no response; even there the partial transient file has already been
deleted.  The original claim fails for requests with two file parts, whose
first transient file is orphaned (see the counterexample). -/
theorem c2_cleanup_invariant (cfg : UploadConfig) (req : UploadRequest)
    (hone : fileCount req.parts ≤ 1) :
    (handleUpload cfg req).fsLeft = [] ∧
    ((handleUpload cfg req).hung = false →
      (handleUpload cfg req).responded.isSome = true) ∧
    ((handleUpload cfg req).hung = true →
      ∃ fn sz, FormPart.file fn sz ∈ req.parts ∧ sz > fileSizeLimit) := by
  cases hcw : cfg.webhookUrl with
  | none => simp [handleUpload, hcw]
  | some url =>
    have hcases : fileCount req.parts = 0 ∨ fileCount req.parts = 1 := by
      omega
    rcases hcases with h0 | h1
    · obtain ⟨hT, hF, hR, hD⟩ := runParts_fields_only req.parts initState 0 h0
      have hT' : (runParts initState 0 req.parts).tempFilePath = none := by
        rw [hT]; rfl
      have hF' : (runParts initState 0 req.parts).fs = [] := by
        rw [hF]; rfl
      by_cases hpe : req.parseError
      · simp [handleUpload, hcw, hpe, hT', hF']
      · simp [handleUpload, hcw, hpe, finishUpload, hT', hF']
    · obtain ⟨a, fn, sz, b, hps, ha, hb⟩ := fileCount_one_split req.parts h1
      obtain ⟨cT, cR, cOver, cUnder⟩ := runParts_one_file_char a b fn sz ha hb
      rw [← hps] at cT cR cOver cUnder
      have hmem : FormPart.file fn sz ∈ req.parts := by
        rw [hps]
        exact List.mem_append_right _ (List.mem_cons_self _ _)
      by_cases hpe : req.parseError
      · by_cases hsz : sz > fileSizeLimit
        · obtain ⟨_, cfs⟩ := cOver hsz
          simp [handleUpload, hcw, hpe, cT, cfs]
        · obtain ⟨_, cfs⟩ := cUnder hsz
          simp [handleUpload, hcw, hpe, cT, cfs]
      · by_cases hval : (runParts initState 0 req.parts).clipSize = "" ∨
            (runParts initState 0 req.parts).clipDuration = ""
        · by_cases hsz : sz > fileSizeLimit
          · obtain ⟨_, cfs⟩ := cOver hsz
            simp [handleUpload, hcw, hpe, finishUpload, cT, cR, cfs, hval]
          · obtain ⟨_, cfs⟩ := cUnder hsz
            simp [handleUpload, hcw, hpe, finishUpload, cT, cR, cfs, hval]
        · by_cases hsz : sz > fileSizeLimit
          · obtain ⟨cD, cfs⟩ := cOver hsz
            refine ⟨?_, ?_, fun _ => ⟨fn, sz, hmem, hsz⟩⟩ <;>
              simp [handleUpload, hcw, hpe, finishUpload, cT, cR, cD, cfs,
                hval]
          · obtain ⟨cD, cfs⟩ := cUnder hsz
            cases hfe : cfg.fetch with
            | reject msg =>
              simp [handleUpload, hcw, hpe, finishUpload, cT, cR, cD, cfs,
                hval, hfe]
            | response ok status body =>
              by_cases hok : ok = false <;>
                simp [handleUpload, hcw, hpe, finishUpload, cT, cR, cD, cfs,
                  hval, hfe, hok]

def cfgRelay : UploadConfig :=
  ⟨some "https://example.invalid/hook", .response true 200 "ok"⟩

def reqTwoFiles : UploadRequest :=
  ⟨[.field "clip_size" "1080x1920", .field "clip_duration" "30",
    .file "a.mp4" 5, .file "b.mp4" 5], false⟩

/-- C2 counterexample.  A request with two file parts: the handler's
tempFilePath is overwritten by the second file event, so every cleanup
call erases only the second temp file; the request completes with a
success response while the first transient file still exists — an
orphaned transient file. -/
theorem c2_counterexample :
    (handleUpload cfgRelay reqTwoFiles).responded.isSome = true ∧
    (handleUpload cfgRelay reqTwoFiles).fsLeft = [2] ∧
    (handleUpload cfgRelay reqTwoFiles).fsLeft ≠ [] := by
  exact ⟨by decide, by decide, by decide⟩

def reqOneFile : UploadRequest :=
  ⟨[.field "clip_size" "1080x1920", .field "clip_duration" "30",
    .file "v.mp4" 9], false⟩

theorem c2_cleanup_invariant_witness :
    (handleUpload cfgRelay reqOneFile).fsLeft = [] ∧
    ((handleUpload cfgRelay reqOneFile).hung = false →
      (handleUpload cfgRelay reqOneFile).responded.isSome = true) ∧
    ((handleUpload cfgRelay reqOneFile).hung = true →
      ∃ fn sz, FormPart.file fn sz ∈ reqOneFile.parts ∧ sz > fileSizeLimit) :=
  c2_cleanup_invariant cfgRelay reqOneFile (by decide)

/-! ### Claim C3: size enforcement -/

/-- C3.  For an upload whose file part exceeds the 500 MiB ceiling: the
limit handler destroys the write stream and deletes the partial transient
file within the very step that processes the file part; the request is
never forwarded (no POST to the webhook is issued), and no transient file
remains afterwards. -/
theorem c3_size_enforcement (cfg : UploadConfig) (req : UploadRequest)
    (a b : List FormPart) (fn : String) (sz : Nat)
    (hreq : req.parts = a ++ FormPart.file fn sz :: b)
    (ha : fileCount a = 0) (hb : fileCount b = 0)
    (hsz : sz > fileSizeLimit) :
    (∀ (st : BusboyState) (i : Nat),
      (processFile st i fn sz).fs = st.fs ∧
      (processFile st i fn sz).streamDestroyed = true) ∧
    (handleUpload cfg req).forwarded = none ∧
    (handleUpload cfg req).fsLeft = [] := by
  refine ⟨fun st i => ⟨?_, ?_⟩, ?_⟩
  · simp [processFile, hsz]
  · simp [processFile, hsz]
  · obtain ⟨cT, cR, cOver, _⟩ := runParts_one_file_char a b fn sz ha hb
    rw [← hreq] at cT cR cOver
    obtain ⟨cD, cfs⟩ := cOver hsz
    cases hcw : cfg.webhookUrl with
    | none => simp [handleUpload, hcw]
    | some url =>
      by_cases hpe : req.parseError
      · simp [handleUpload, hcw, hpe, cT, cfs]
      · by_cases hval : (runParts initState 0 req.parts).clipSize = "" ∨
            (runParts initState 0 req.parts).clipDuration = ""
        · simp [handleUpload, hcw, hpe, finishUpload, cT, cR, cfs, hval]
        · simp [handleUpload, hcw, hpe, finishUpload, cT, cR, cD, cfs, hval]

def reqBigFile : UploadRequest :=
  ⟨[.field "clip_size" "1080x1920", .field "clip_duration" "30",
    .file "big.mp4" 524288001], false⟩

theorem c3_size_enforcement_witness :
    (∀ (st : BusboyState) (i : Nat),
      (processFile st i "big.mp4" 524288001).fs = st.fs ∧
      (processFile st i "big.mp4" 524288001).streamDestroyed = true) ∧
    (handleUpload cfgRelay reqBigFile).forwarded = none ∧
    (handleUpload cfgRelay reqBigFile).fsLeft = [] :=
  c3_size_enforcement cfgRelay reqBigFile
    [.field "clip_size" "1080x1920", .field "clip_duration" "30"] []
    "big.mp4" 524288001 rfl rfl rfl (by decide)

/-! ### Claim C6: clip_count field defaulting -/

theorem processField_clipCount_other (st : BusboyState) (n v : String)
    (hn : n ≠ "clip_count") : (processField st n v).clipCount = st.clipCount := by
  by_cases h1 : n = "clip_size"
  · simp [processField, h1]
  · by_cases h2 : n = "clip_duration"
    · simp [processField, h1, h2]
    · simp [processField, h1, h2, hn]

theorem runParts_clipCount_absent (ps : List FormPart) :
    ∀ (st : BusboyState) (i : Nat),
      (∀ v, FormPart.field "clip_count" v ∉ ps) →
      (runParts st i ps).clipCount = st.clipCount := by
  induction ps with
  | nil => intro st i _; rfl
  | cons p ps ih =>
    intro st i h
    cases p with
    | field n v =>
      have hrest : ∀ w, FormPart.field "clip_count" w ∉ ps :=
        fun w hw => h w (List.mem_cons_of_mem _ hw)
      have hn : n ≠ "clip_count" := by
        intro hc
        subst hc
        exact h v (List.mem_cons_self _ _)
      simp only [runParts]
      rw [ih _ _ hrest, processField_clipCount_other st n v hn]
    | file fn sz =>
      have hrest : ∀ w, FormPart.field "clip_count" w ∉ ps :=
        fun w hw => h w (List.mem_cons_of_mem _ hw)
      simp only [runParts]
      rw [ih _ _ hrest, (processFile_clipFields st i fn sz).2.2]

def reqNegCount : UploadRequest :=
  ⟨[.field "clip_size" "1080x1920", .field "clip_duration" "30",
    .field "clip_count" "-5", .file "v.mp4" 9], false⟩

/-- C6 counterexample.  parseInt("-5") = -5 is truthy, so
`parseInt(value) || 1` keeps it: the handler uses and forwards
clip_count = -5, which is not an integer ≥ 1 as the claim requires. -/
theorem c6_counterexample :
    (runParts initState 0 reqNegCount.parts).clipCount = -5 ∧
    (handleUpload cfgRelay reqNegCount).forwarded.map ForwardForm.fields =
      some [("video_type", "mp4"), ("file_name", "v.mp4"),
            ("clip_size", "1080x1920"), ("clip_duration", "30"),
            ("clip_count", "-5")] ∧
    ¬ (1 : Int) ≤ -5 :=
  ⟨by decide, by decide, by decide⟩

/-- C6 amended.  The clip_count used by the handler is
`parseInt(value) || 1` of the last clip_count field: 1 when the field is
absent, unparseable (NaN) or parses to 0, and the parsed integer itself
otherwise — including negative integers, so the used value is not always
≥ 1 (see the counterexample); the spec's concrete cases hold:
"abc" gives 1 and an absent field gives 1. -/
theorem c6_field_defaulting :
    (∀ (st : BusboyState) (v : String),
      (processField st "clip_count" v).clipCount = parseIntOr1 v) ∧
    (∀ v : String, jsParseInt v = none → parseIntOr1 v = 1) ∧
    (∀ v : String, jsParseInt v = some 0 → parseIntOr1 v = 1) ∧
    (∀ (v : String) (n : Int), jsParseInt v = some n → n ≠ 0 →
      parseIntOr1 v = n) ∧
    parseIntOr1 "abc" = 1 ∧
    (∀ ps : List FormPart, (∀ v, FormPart.field "clip_count" v ∉ ps) →
      ∀ i : Nat, (runParts initState i ps).clipCount = 1) := by
  refine ⟨?_, ?_, ?_, ?_, by decide, ?_⟩
  · intro st v
    simp [processField]
  · intro v h
    simp [parseIntOr1, h]
  · intro v h
    simp [parseIntOr1, h]
  · intro v n h hn
    simp [parseIntOr1, h, hn]
  · intro ps h i
    rw [runParts_clipCount_absent ps initState i h]
    rfl

theorem c6_field_defaulting_witness :
    parseIntOr1 "abc" = 1 ∧
    (runParts initState 0
      [FormPart.field "clip_size" "x", FormPart.file "v.mp4" 9]).clipCount
      = 1 ∧
    parseIntOr1 "7" = 7 :=
  ⟨c6_field_defaulting.2.2.2.2.1,
   c6_field_defaulting.2.2.2.2.2
     [FormPart.field "clip_size" "x", FormPart.file "v.mp4" 9]
     (fun v hv => by simp at hv) 0,
   c6_field_defaulting.2.2.2.1 "7" 7 (by decide) (by decide)⟩

/-! ### Claim C7: forward fidelity -/

/-- Spec side: the value of the LAST occurrence of field `name` among the
parts (later fields overwrite earlier ones). -/
def lastFieldValue (name : String) : List FormPart → Option String
  | [] => none
  | FormPart.field n v :: ps =>
    match lastFieldValue name ps with
    | some w => some w
    | none => if n = name then some v else none
  | FormPart.file _ _ :: ps => lastFieldValue name ps

/-- Spec side: the filename of the LAST file part. -/
def lastFileName : List FormPart → Option String
  | [] => none
  | FormPart.field _ _ :: ps => lastFileName ps
  | FormPart.file fn _ :: ps =>
    match lastFileName ps with
    | some w => some w
    | none => some fn

/-- Spec side: the clip_count after defaulting — `parseInt(v) || 1` of the
last clip_count field, or 1 when the field is absent. -/
def clipCountSpec (parts : List FormPart) : Int :=
  match lastFieldValue "clip_count" parts with
  | some v => parseIntOr1 v
  | none => 1

theorem processField_clipSize_eq (st : BusboyState) (n v : String) :
    (processField st n v).clipSize =
      if n = "clip_size" then v else st.clipSize := by
  by_cases h1 : n = "clip_size"
  · simp [processField, h1]
  · by_cases h2 : n = "clip_duration"
    · simp [processField, h1, h2]
    · by_cases h3 : n = "clip_count"
      · simp [processField, h1, h2, h3]
      · simp [processField, h1, h2, h3]

theorem processField_clipDuration_eq (st : BusboyState) (n v : String) :
    (processField st n v).clipDuration =
      if n = "clip_duration" then v else st.clipDuration := by
  by_cases h1 : n = "clip_size"
  · simp [processField, h1]
  · by_cases h2 : n = "clip_duration"
    · simp [processField, h1, h2]
    · by_cases h3 : n = "clip_count"
      · simp [processField, h1, h2, h3]
      · simp [processField, h1, h2, h3]

theorem processField_clipCount_eq (st : BusboyState) (n v : String) :
    (processField st n v).clipCount =
      if n = "clip_count" then parseIntOr1 v else st.clipCount := by
  by_cases h1 : n = "clip_size"
  · simp [processField, h1]
  · by_cases h2 : n = "clip_duration"
    · simp [processField, h1, h2]
    · by_cases h3 : n = "clip_count"
      · simp [processField, h1, h2, h3]
      · simp [processField, h1, h2, h3]

theorem processFile_fileName (st : BusboyState) (i : Nat) (fn : String)
    (sz : Nat) : (processFile st i fn sz).fileName = fn := by
  by_cases hsz : sz > fileSizeLimit <;> simp [processFile, hsz]

theorem runParts_clipSize (ps : List FormPart) :
    ∀ (st : BusboyState) (i : Nat),
      (runParts st i ps).clipSize =
        (lastFieldValue "clip_size" ps).getD st.clipSize := by
  induction ps with
  | nil => intro st i; rfl
  | cons p ps ih =>
    intro st i
    cases p with
    | field n v =>
      simp only [runParts, lastFieldValue]
      rw [ih]
      cases h : lastFieldValue "clip_size" ps with
      | some w => simp
      | none =>
        rw [processField_clipSize_eq]
        by_cases hn : n = "clip_size" <;> simp [hn]
    | file fn sz =>
      simp only [runParts, lastFieldValue]
      rw [ih, (processFile_clipFields st i fn sz).1]

theorem runParts_clipDuration (ps : List FormPart) :
    ∀ (st : BusboyState) (i : Nat),
      (runParts st i ps).clipDuration =
        (lastFieldValue "clip_duration" ps).getD st.clipDuration := by
  induction ps with
  | nil => intro st i; rfl
  | cons p ps ih =>
    intro st i
    cases p with
    | field n v =>
      simp only [runParts, lastFieldValue]
      rw [ih]
      cases h : lastFieldValue "clip_duration" ps with
      | some w => simp
      | none =>
        rw [processField_clipDuration_eq]
        by_cases hn : n = "clip_duration" <;> simp [hn]
    | file fn sz =>
      simp only [runParts, lastFieldValue]
      rw [ih, (processFile_clipFields st i fn sz).2.1]

theorem runParts_clipCount (ps : List FormPart) :
    ∀ (st : BusboyState) (i : Nat),
      (runParts st i ps).clipCount =
        (match lastFieldValue "clip_count" ps with
         | some v => parseIntOr1 v
         | none => st.clipCount) := by
  induction ps with
  | nil => intro st i; rfl
  | cons p ps ih =>
    intro st i
    cases p with
    | field n v =>
      simp only [runParts, lastFieldValue]
      rw [ih]
      cases h : lastFieldValue "clip_count" ps with
      | some w => simp
      | none =>
        rw [processField_clipCount_eq]
        by_cases hn : n = "clip_count" <;> simp [hn]
    | file fn sz =>
      simp only [runParts, lastFieldValue]
      rw [ih, (processFile_clipFields st i fn sz).2.2]

theorem runParts_fileName (ps : List FormPart) :
    ∀ (st : BusboyState) (i : Nat),
      (runParts st i ps).fileName = (lastFileName ps).getD st.fileName := by
  induction ps with
  | nil => intro st i; rfl
  | cons p ps ih =>
    intro st i
    cases p with
    | field n v =>
      simp only [runParts, lastFileName]
      rw [ih, processField_fileName]
    | file fn sz =>
      simp only [runParts, lastFileName]
      rw [ih]
      cases h : lastFileName ps with
      | some w => simp
      | none => simp [processFile_fileName]

theorem runParts_clipCount_init (ps : List FormPart) :
    (runParts initState 0 ps).clipCount = clipCountSpec ps := by
  rw [runParts_clipCount]
  unfold clipCountSpec
  cases lastFieldValue "clip_count" ps <;> rfl

theorem finishUpload_forwarded_fields (cfg : UploadConfig) (st : BusboyState)
    (f : ForwardForm) (h : (finishUpload cfg st).forwarded = some f) :
    f.fields = [("video_type", "mp4"), ("file_name", st.fileName),
      ("clip_size", st.clipSize), ("clip_duration", st.clipDuration),
      ("clip_count", toString st.clipCount)] ∧
    f.fileContentType = "video/mp4" := by
  unfold finishUpload at h
  cases htemp : st.tempFilePath with
  | none =>
    rw [htemp] at h
    simp at h
  | some p =>
    simp only [htemp] at h
    by_cases h1 : st.fileReceived = false
    · simp only [if_pos h1] at h
      simp at h
    · simp only [if_neg h1] at h
      by_cases h2 : st.clipSize = "" ∨ st.clipDuration = ""
      · simp only [if_pos h2] at h
        simp at h
      · simp only [if_neg h2] at h
        by_cases h3 : st.streamDestroyed
        · simp only [if_pos h3] at h
          simp at h
        · simp only [if_neg h3] at h
          cases hfe : cfg.fetch with
          | reject msg =>
            simp only [hfe, Option.some.injEq] at h
            exact ⟨by rw [← h], by rw [← h]⟩
          | response ok status body =>
            simp only [hfe] at h
            by_cases hok : ok = false
            · simp only [if_pos hok, Option.some.injEq] at h
              exact ⟨by rw [← h], by rw [← h]⟩
            · simp only [if_neg hok, Option.some.injEq] at h
              exact ⟨by rw [← h], by rw [← h]⟩

/-- C7.  Whenever the relay forwards, the multipart fields POSTed to the
webhook are exactly video_type="mp4", the last supplied filename, the last
supplied clip_size and clip_duration, and clip_count after defaulting, and
the file part is declared with content type video/mp4. -/
theorem c7_forward_fidelity (cfg : UploadConfig) (req : UploadRequest)
    (f : ForwardForm) (hf : (handleUpload cfg req).forwarded = some f) :
    f.fields =
      [("video_type", "mp4"),
       ("file_name", (lastFileName req.parts).getD ""),
       ("clip_size", (lastFieldValue "clip_size" req.parts).getD ""),
       ("clip_duration", (lastFieldValue "clip_duration" req.parts).getD ""),
       ("clip_count", toString (clipCountSpec req.parts))] ∧
    f.fileContentType = "video/mp4" := by
  unfold handleUpload at hf
  cases hcw : cfg.webhookUrl with
  | none =>
    rw [hcw] at hf
    simp at hf
  | some url =>
    rw [hcw] at hf
    by_cases hpe : req.parseError
    · rw [if_pos hpe] at hf
      simp at hf
    · rw [if_neg hpe] at hf
      obtain ⟨hfields, hct⟩ := finishUpload_forwarded_fields cfg _ f hf
      refine ⟨?_, hct⟩
      rw [hfields, runParts_fileName, runParts_clipSize, runParts_clipDuration,
        runParts_clipCount_init]
      rfl

def reqGood : UploadRequest :=
  ⟨[.field "clip_size" "1080x1920", .field "clip_duration" "30",
    .file "v.mp4" 9], false⟩

def fwdGood : ForwardForm :=
  ⟨[("video_type", "mp4"), ("file_name", "v.mp4"),
    ("clip_size", "1080x1920"), ("clip_duration", "30"),
    ("clip_count", "1")], 2, "video/mp4"⟩

theorem c7_forward_fidelity_witness :
    fwdGood.fields =
      [("video_type", "mp4"),
       ("file_name", (lastFileName reqGood.parts).getD ""),
       ("clip_size", (lastFieldValue "clip_size" reqGood.parts).getD ""),
       ("clip_duration",
         (lastFieldValue "clip_duration" reqGood.parts).getD ""),
       ("clip_count", toString (clipCountSpec reqGood.parts))] ∧
    fwdGood.fileContentType = "video/mp4" :=
  c7_forward_fidelity cfgRelay reqGood fwdGood (by decide)
